import Mathlib

/-!
# Republik Entertainment booking backend: slot availability and reservation workflow

A shallow embedding of `main.go`.

* Go strings are Lean `String`s and slices of strings are `List String`. The two text
  scanners (`regexp`, `time.Parse`) read a string as its list of characters; every byte
  they accept is ASCII, so reading characters instead of bytes accepts the same texts.
* The package-level store handle `db` is the `reservations` component of `World`: the rows
  of the `reservations` table in insertion order (the auto-assigned `id` column is never
  read by the program and is not carried).
* The outcome of every call to a library that talks to the outside (calendar API, Gmail
  API, SQLite driver) is read from a `Providers` record; the calls the program issues are
  appended to `World.trace`, so a run is a function from a world to a response and a world.
* `getClient` (loading the cached OAuth token) is taken to return a client.
* `regexp.MatchString` is a Brzozowski-derivative matcher over a small regular-expression
  language, `time.Parse` is written out for the one layout the program uses.
* Log lines and console output are not carried.

The definitions come first, then the proofs; the statements marked C1 to C10 are the
properties checked against the specification.
-/

namespace Republik

/-! ## Slot catalog and availability calculator -/

/-- The package-level `defaultHeures` slice. -/
def defaultHeures : List String := ["09:00", "11:00", "13:00", "15:00", "17:00", "19:00"]

/-- Assignment `m[k] = v` on a Go `map[string]bool`, kept as an association list whose
first binding of a key is the current one. -/
def mapSet (m : List (String × Bool)) (k : String) (v : Bool) : List (String × Bool) :=
  (k, v) :: m

/-- Lookup `m[k]` on a Go `map[string]bool`: a missing key reads as the zero value `false`. -/
def mapGet : List (String × Bool) → String → Bool
  | [], _ => false
  | (k', v) :: m, k => if k = k' then v else mapGet m k

/-- The function `filterAvailableHeures`: the first loop fills `reservedSet`, the second
appends to `available` every catalog entry whose lookup in `reservedSet` is false. -/
def filterAvailableHeures (defaultHeures reservedHeures : List String) : List String :=
  let reservedSet := reservedHeures.foldl (fun m heure => mapSet m heure true) []
  defaultHeures.foldl
    (fun available heure =>
      if !mapGet reservedSet heure then available ++ [heure] else available) []

/-! ## Regular expressions and the email validator -/

/-- Regular expressions: the fragment of Go `regexp` syntax used by the program, together
with the empty language and the empty word, which derivatives need. -/
inductive Regex where
  | none : Regex
  | eps : Regex
  | lit (c : Char) : Regex
  | cls (ranges : List (Char × Char)) : Regex
  | alt (a b : Regex) : Regex
  | cat (a b : Regex) : Regex
  | star (a : Regex) : Regex

/-- Membership of a character in a bracket class given as a list of inclusive ranges. -/
def inClass (ranges : List (Char × Char)) (c : Char) : Bool :=
  ranges.any (fun r => decide (r.1 ≤ c) && decide (c ≤ r.2))

/-- Whether the expression accepts the empty word. -/
def Regex.nullable : Regex → Bool
  | .none => false
  | .eps => true
  | .lit _ => false
  | .cls _ => false
  | .alt a b => a.nullable || b.nullable
  | .cat a b => a.nullable && b.nullable
  | .star _ => true

/-- Brzozowski derivative with respect to one character. -/
def Regex.deriv : Regex → Char → Regex
  | .none, _ => .none
  | .eps, _ => .none
  | .lit c, x => if x = c then .eps else .none
  | .cls rs, x => if inClass rs x then .eps else .none
  | .alt a b, x => .alt (a.deriv x) (b.deriv x)
  | .cat a b, x =>
      if a.nullable then .alt (.cat (a.deriv x) b) (b.deriv x) else .cat (a.deriv x) b
  | .star a, x => .cat (a.deriv x) (.star a)

/-- Whole-input match: the expression between `^` and `$` accepts exactly the given word. -/
def Regex.rmatch : Regex → List Char → Bool
  | r, [] => r.nullable
  | r, c :: cs => (r.deriv c).rmatch cs

/-- The operator `+`: one or more repetitions. -/
def Regex.plus (r : Regex) : Regex := .cat r (.star r)

/-- The counted repetition `{2,}`: two or more repetitions. -/
def Regex.atLeastTwo (r : Regex) : Regex := .cat r (.cat r (.star r))

/-- The class `[a-zA-Z0-9._%+-]`. -/
def localClass : List (Char × Char) :=
  [('a', 'z'), ('A', 'Z'), ('0', '9'), ('.', '.'), ('_', '_'), ('%', '%'), ('+', '+'),
   ('-', '-')]

/-- The class `[a-zA-Z0-9.-]`. -/
def domainClass : List (Char × Char) :=
  [('a', 'z'), ('A', 'Z'), ('0', '9'), ('.', '.'), ('-', '-')]

/-- The class `[a-zA-Z]`. -/
def letterClass : List (Char × Char) := [('a', 'z'), ('A', 'Z')]

/-- The pattern `^[a-zA-Z0-9._%+-]+@[a-zA-Z0-9.-]+\.[a-zA-Z]{2,}$` compiled in
`isEmailValid`, without its two anchors (`rmatch` matches the whole input). -/
def emailRe : Regex :=
  .cat (Regex.plus (.cls localClass))
    (.cat (.lit '@')
      (.cat (Regex.plus (.cls domainClass))
        (.cat (.lit '.') (Regex.atLeastTwo (.cls letterClass)))))

/-- The function `isEmailValid`. -/
def isEmailValid (email : String) : Bool := emailRe.rmatch email.toList

/-- The shape of an accepted address as the specification words it: `L@D.T` with `L` a
non-empty run over `[A-Za-z0-9._%+-]`, `D` a non-empty run over `[A-Za-z0-9.-]` and `T` at
least two ASCII letters. -/
def EmailForm (s : List Char) : Prop :=
  ∃ L D T : List Char, s = L ++ '@' :: (D ++ '.' :: T) ∧
    L ≠ [] ∧
    (∀ c ∈ L, ('a' ≤ c ∧ c ≤ 'z') ∨ ('A' ≤ c ∧ c ≤ 'Z') ∨ ('0' ≤ c ∧ c ≤ '9') ∨
      c = '.' ∨ c = '_' ∨ c = '%' ∨ c = '+' ∨ c = '-') ∧
    D ≠ [] ∧
    (∀ c ∈ D, ('a' ≤ c ∧ c ≤ 'z') ∨ ('A' ≤ c ∧ c ≤ 'Z') ∨ ('0' ≤ c ∧ c ≤ '9') ∨
      c = '.' ∨ c = '-') ∧
    2 ≤ T.length ∧
    (∀ c ∈ T, ('a' ≤ c ∧ c ≤ 'z') ∨ ('A' ≤ c ∧ c ≤ 'Z'))

/-! ## `time.Parse` for the layout `2006-01-02T15:04:05` -/

/-- A parsed instant (UTC): the fields `time.Parse` hands to `Date`. -/
structure Time where
  year : Nat
  month : Nat
  day : Nat
  hour : Nat
  min : Nat
  sec : Nat
  nsec : Nat
deriving DecidableEq, Repr

/-- Whether a byte is an ASCII decimal digit. -/
def isDigitChar (c : Char) : Bool := decide ('0' ≤ c) && decide (c ≤ '9')

/-- The helper `isDigit(s, i)` of package `time`: position `i` exists and holds a digit. -/
def isDigit (s : List Char) (i : Nat) : Bool :=
  match s[i]? with
  | some c => isDigitChar c
  | none => false

/-- Value of a decimal digit, `c - '0'`. -/
def digitVal (c : Char) : Nat := c.toNat - '0'.toNat

/-- The helper `getnum(s, fixed)`: one or two leading digits; with `fixed`, exactly two. -/
def getnum (s : List Char) (fixed : Bool) : Option (Nat × List Char) :=
  if !isDigit s 0 then none
  else if !isDigit s 1 then
    if fixed then none else some (digitVal (s.headD '0'), s.drop 1)
  else some (digitVal (s.headD '0') * 10 + digitVal ((s.drop 1).headD '0'), s.drop 2)

/-- The helper `atoi` on an unsigned digit string (its sign branch is unreachable behind the
`isDigit(value, 0)` guard of the year chunk): every byte must be a digit. -/
def atoi (s : List Char) : Option Nat :=
  if s.all isDigitChar then some (s.foldl (fun x c => x * 10 + digitVal c) 0) else none

/-- The helper `skip(value, pfx)` for a literal layout chunk without spaces: the value must
start with the chunk, which is removed. -/
def skip : List Char → List Char → Option (List Char)
  | value, [] => some value
  | [], _ :: _ => none
  | v :: value, p :: pfx => if v = p then skip value pfx else none

/-- The helper `isLeap`. -/
def isLeap (year : Nat) : Bool := year % 4 == 0 && (year % 100 != 0 || year % 400 == 0)

/-- The helper `daysIn(m, year)`. -/
def daysIn (m year : Nat) : Nat :=
  if m == 2 && isLeap year then 29
  else match m with
    | 1 => 31 | 2 => 28 | 3 => 31 | 4 => 30 | 5 => 31 | 6 => 30
    | 7 => 31 | 8 => 31 | 9 => 30 | 10 => 31 | 11 => 30 | 12 => 31
    | _ => 0

/-- The helper `commaOrPeriod`. -/
def commaOrPeriod (c : Char) : Bool := c == '.' || c == ','

/-- The fractional-second special case after the seconds chunk (the layout has no
fractional chunk): when the value continues with a comma or period and a digit, the run of
digits is consumed as nanoseconds (`parseNanoseconds`, at most nine digits kept, scaled to
nine places). Returns the nanoseconds and the rest of the value. -/
def fracSecond (value : List Char) : Nat × List Char :=
  if decide (2 ≤ value.length) && commaOrPeriod (value.headD ' ') && isDigit value 1 then
    let digits := (value.drop 1).takeWhile isDigitChar
    let kept := digits.take 9
    (kept.foldl (fun x c => x * 10 + digitVal c) 0 * 10 ^ (9 - kept.length),
      (value.drop 1).dropWhile isDigitChar)
  else (0, value)

/-- The call `time.Parse("2006-01-02T15:04:05", value)`, `none` for an error. The layout
splits into the chunks year `2006`, `-`, month `01`, `-`, day `02`, `T`, hour `15`, `:`,
minute `04`, `:`, second `05`; text left over after the last chunk is an error, and the day
is checked against the month last. -/
def timeParse (value : String) : Option Time :=
  let value := value.toList
  if decide (value.length < 4) || !isDigit value 0 then none else
  match atoi (value.take 4) with
  | none => none
  | some year =>
  match skip (value.drop 4) ['-'] with
  | none => none
  | some value =>
  match getnum value true with
  | none => none
  | some (month, value) =>
  if decide (month ≤ 0) || decide (12 < month) then none else
  match skip value ['-'] with
  | none => none
  | some value =>
  match getnum value true with
  | none => none
  | some (day, value) =>
  match skip value ['T'] with
  | none => none
  | some value =>
  match getnum value false with
  | none => none
  | some (hour, value) =>
  if decide (24 ≤ hour) then none else
  match skip value [':'] with
  | none => none
  | some value =>
  match getnum value true with
  | none => none
  | some (min, value) =>
  if decide (60 ≤ min) then none else
  match skip value [':'] with
  | none => none
  | some value =>
  match getnum value true with
  | none => none
  | some (sec, value) =>
  if decide (60 ≤ sec) then none else
  let (nsec, value) := fracSecond value
  if !value.isEmpty then none else
  if decide (day < 1) || decide (daysIn month year < day) then none else
  some ⟨year, month, day, hour, min, sec, nsec⟩

/-- The method `Add(2 * time.Hour)`: two hours later, rolling over day, month and year. -/
def Time.addTwoHours (t : Time) : Time :=
  if t.hour + 2 < 24 then { t with hour := t.hour + 2 }
  else if t.day < daysIn t.month t.year then { t with hour := t.hour + 2 - 24, day := t.day + 1 }
  else if t.month < 12 then { t with hour := t.hour + 2 - 24, day := 1, month := t.month + 1 }
  else { t with hour := t.hour + 2 - 24, day := 1, month := 1, year := t.year + 1 }

/-! ## Store, providers and the reservation workflow -/

/-- One row of the `reservations` table, in the column order of the `INSERT`. -/
structure Reservation where
  nom : String
  prenom : String
  email : String
  telephone : String
  type_session : String
  date_session : String
  heure_session : String
  nb_personnes : String
  message : String
  google_event_id : String
deriving DecidableEq, Repr

/-- The `googleCalendar.Event` built by `addEventToCalendar`: start and end carry the
instant that the program formats as RFC 3339, both in time zone `Europe/Paris`, with
default reminders. -/
structure Event where
  summary : String
  description : String
  start : Time
  finish : Time
  attendees : List String
deriving DecidableEq, Repr

/-- Result of `srv.Events.Insert("primary", event).Do()`: the created event id, a
`googleapi.Error` with code 401, or any other error. -/
inductive InsertResult where
  | created (id : String) : InsertResult
  | unauthorized : InsertResult
  | failed : InsertResult
deriving DecidableEq, Repr

/-- A call issued by the program to the calendar provider, the store or the mailer. -/
inductive Call where
  | eventsInsert (event : Event) : Call
  | dbExec (row : Reservation) : Call
  | sendEmail (recipient subject body : String) : Call
deriving DecidableEq, Repr

/-- Outcomes of the external calls. `true` means the call returns a nil error.
`sendEmail` stands for one invocation of `sendEmailWithGmail`, which hands the message to
`Users.Messages.Send` unless `gmail.New` fails. -/
structure Providers where
  calendarNew : Bool
  eventsInsert : Event → InsertResult
  dbExec : Reservation → Bool
  gmailNew : Bool
  gmailSend : String → String → String → Bool
  dbQuery : String → Bool
  rowsScan : Nat → Bool

/-- The store and the calls issued so far. -/
structure World where
  reservations : List Reservation
  trace : List Call
deriving DecidableEq, Repr

/-- What a handler writes to the `http.ResponseWriter`: `http.Error` with its message and
status code (the newline it appends is not carried), `http.Redirect`, an executed template,
or a JSON array of strings. -/
inductive Response where
  | error (msg : String) (code : Nat) : Response
  | redirect (url : String) (code : Nat) : Response
  | page (file : String) : Response
  | json (body : List String) : Response
deriving DecidableEq, Repr

/-- HTTP status code of a response. -/
def Response.status : Response → Nat
  | .error _ code => code
  | .redirect _ code => code
  | .page _ => 200
  | .json _ => 200

/-- The form values read by `reservationHandler` through `r.FormValue`, with the request
method. -/
structure Request where
  method : String
  nom : String
  prenom : String
  email : String
  telephone : String
  type_session : String
  date_session : String
  heure_session : String
  nb_personnes : String
  message : String
deriving DecidableEq, Repr

/-- The event literal of `addEventToCalendar`. -/
def mkEvent (nom email telephone typeSession message nb_personnes : String)
    (startTime : Time) : Event :=
  { summary := "Réservation de " ++ nom ++ " - " ++ typeSession
    description := "Téléphone: " ++ telephone ++ "\nEmail: " ++ email ++ "\nMessage: " ++
      message ++ "\nNombre de personnes: " ++ nb_personnes
    start := startTime
    finish := startTime.addTwoHours
    attendees := ["damstrafic450@gmail.com", email] }

/-- The function `addEventToCalendar`: returns the event id or the error message, and the
world after the calls it made. -/
def addEventToCalendar (P : Providers) (w : World)
    (nom prenom email telephone typeSession dateSession heureSession message
      nb_personnes : String) : Except String String × World :=
  if !P.calendarNew then
    (.error "erreur technique : impossible de traiter votre demande", w)
  else
    let sessionTime := dateSession ++ "T" ++ heureSession ++ ":00"
    match timeParse sessionTime with
    | none => (.error "erreur technique : format de date ou d'heure invalide", w)
    | some startTime =>
      let event := mkEvent nom email telephone typeSession message nb_personnes startTime
      let w1 : World := { w with trace := w.trace ++ [Call.eventsInsert event] }
      match P.eventsInsert event with
      | .unauthorized =>
        (.error "erreur technique : impossible de traiter votre demande pour le moment", w1)
      | .failed => (.error "erreur technique : impossible de traiter votre demande", w1)
      | .created id =>
        let row : Reservation :=
          ⟨nom, prenom, email, telephone, typeSession, dateSession, heureSession,
            nb_personnes, message, id⟩
        let w2 : World := { w1 with trace := w1.trace ++ [Call.dbExec row] }
        if !P.dbExec row then
          (.error "erreur technique : impossible de traiter votre demande", w2)
        else (.ok id, { w2 with reservations := w2.reservations ++ [row] })

/-- The function `sendEmailWithGmail`: `none` for a nil error, otherwise the error text
without the provider detail appended by `%v`. The message bytes handed to the API are
determined by recipient, subject and body, which is what the call records. -/
def sendEmailWithGmail (P : Providers) (w : World) (recipient subject body : String) :
    Option String × World :=
  let w1 : World := { w with trace := w.trace ++ [Call.sendEmail recipient subject body] }
  if !P.gmailNew then (some "Erreur lors de la création du service Gmail", w1)
  else if !P.gmailSend recipient subject body then (some "Erreur lors de l'envoi de l'email", w1)
  else (none, w1)

/-- Body of the confirmation email to the customer. -/
def clientBody (prenom typeSession dateSession heureSession : String) : String :=
  "\nBonjour " ++ prenom ++ ",\n\nVotre réservation pour une session de type '" ++
  typeSession ++ "' a été enregistrée pour le " ++ dateSession ++ " à " ++ heureSession ++
  ".\nNous avons également ajouté cet événement à votre Google Calendar.\n\n" ++
  "Vous pouvez consulter et gérer les détails de votre réservation en suivant ce lien : \n" ++
  "https://calendar.google.com/calendar\n\nCordialement,\nL'équipe de Republik Photo\n"

/-- Body of the notification email to the owner. -/
def ownerBody (nom prenom email telephone typeSession dateSession heureSession nbPersonnes
    message eventID : String) : String :=
  "\nBonjour,\n\nUne nouvelle réservation a été effectuée :\n\nNom : " ++ nom ++ " " ++
  prenom ++ "\nEmail : " ++ email ++ "\nTéléphone : " ++ telephone ++
  "\nType de session : " ++ typeSession ++ "\nDate : " ++ dateSession ++ "\nHeure : " ++
  heureSession ++ "\nNombre de personnes : " ++ nbPersonnes ++ "\nMessage : " ++ message ++
  "\n\nConsultez le Google Calendar pour plus de détails : \n" ++ eventID ++
  "\n\nCordialement,\nVotre système de réservation\n"

/-- The function `reservationHandler`. The results of the two `sendEmailWithGmail` calls
are only logged, so only the worlds they return are kept. -/
def reservationHandler (P : Providers) (w : World) (r : Request) : Response × World :=
  if r.method = "POST" then
    if r.nom = "" ∨ r.prenom = "" ∨ r.email = "" ∨ r.telephone = "" ∨ r.type_session = "" ∨
        r.date_session = "" ∨ r.heure_session = "" then
      (.error "Veuillez remplir tous les champs obligatoires." 400, w)
    else if !isEmailValid r.email then
      (.error "Le format de l'email est invalide." 400, w)
    else
      match addEventToCalendar P w r.nom r.prenom r.email r.telephone r.type_session
          r.date_session r.heure_session r.message r.nb_personnes with
      | (.error err, w1) =>
        (.error ("Erreur lors de l'ajout de l'événement au calendrier : " ++ err) 500, w1)
      | (.ok eventID, w1) =>
        let w2 := (sendEmailWithGmail P w1 r.email "Confirmation de votre réservation"
          (clientBody r.prenom r.type_session r.date_session r.heure_session)).2
        let w3 := (sendEmailWithGmail P w2 "damstrafic450@gmail.com"
          "Nouvelle réservation reçue"
          (ownerBody r.nom r.prenom r.email r.telephone r.type_session r.date_session
            r.heure_session r.nb_personnes r.message eventID)).2
        (.redirect "/confirmation" 303, w3)
  else
    (.page "templates/accueil.html", w)

/-- The `heure_session` values returned by
`SELECT heure_session FROM reservations WHERE date_session = ?`. -/
def bookedHeures (rows : List Reservation) (date : String) : List String :=
  (rows.filter (fun row => row.date_session = date)).map (fun row => row.heure_session)

/-- The `rows.Next()` loop of `getHeuresDisponibles`: scan each row and append it to
`reservedHeures`; `none` when a scan fails. -/
def scanRows (P : Providers) : Nat → List String → List String → Option (List String)
  | _, [], reservedHeures => some reservedHeures
  | i, heure :: rest, reservedHeures =>
    if !P.rowsScan i then none else scanRows P (i + 1) rest (reservedHeures ++ [heure])

/-- The function `getHeuresDisponibles`, on the `date` query parameter. -/
def getHeuresDisponibles (P : Providers) (w : World) (date : String) : Response :=
  if date = "" then .error "Date non fournie" 400
  else if !P.dbQuery date then .error "Erreur lors de la récupération des données" 500
  else
    match scanRows P 0 (bookedHeures w.reservations date) [] with
    | none => .error "Erreur lors de la lecture des données" 500
    | some reservedHeures => .json (filterAvailableHeures defaultHeures reservedHeures)

/-! ## Vocabulary for the statements about the workflow -/

/-- The text handed to `time.Parse` for a request: `fmt.Sprintf("%sT%s:00", ...)`. -/
def Request.sessionTime (r : Request) : String :=
  r.date_session ++ "T" ++ r.heure_session ++ ":00"

/-- The calendar event built for a request whose date and time parse to `t`. -/
def Request.event (r : Request) (t : Time) : Event :=
  mkEvent r.nom r.email r.telephone r.type_session r.message r.nb_personnes t

/-- The row inserted for a request once the calendar returned the event id `id`. -/
def Request.row (r : Request) (id : String) : Reservation :=
  ⟨r.nom, r.prenom, r.email, r.telephone, r.type_session, r.date_session, r.heure_session,
    r.nb_personnes, r.message, id⟩

/-- The customer email of a request, as a call. -/
def Request.clientMail (r : Request) : Call :=
  .sendEmail r.email "Confirmation de votre réservation"
    (clientBody r.prenom r.type_session r.date_session r.heure_session)

/-- The operator email of a request whose event id is `id`, as a call. -/
def Request.ownerMail (r : Request) (id : String) : Call :=
  .sendEmail "damstrafic450@gmail.com" "Nouvelle réservation reçue"
    (ownerBody r.nom r.prenom r.email r.telephone r.type_session r.date_session
      r.heure_session r.nb_personnes r.message id)

/-- A `POST` request that passes validation: the seven required form values are non-empty
and the email passes `isEmailValid`. -/
def Validated (r : Request) : Prop :=
  r.method = "POST" ∧ r.nom ≠ "" ∧ r.prenom ≠ "" ∧ r.email ≠ "" ∧ r.telephone ≠ "" ∧
    r.type_session ≠ "" ∧ r.date_session ≠ "" ∧ r.heure_session ≠ "" ∧
    isEmailValid r.email = true

instance (r : Request) : Decidable (Validated r) := by
  unfold Validated
  infer_instance

/-- Calendar creation succeeds for the request: the service is built, date and time parse to
`t`, and the insert returns the event id `id`. -/
def CalendarCreated (P : Providers) (r : Request) (t : Time) (id : String) : Prop :=
  P.calendarNew = true ∧ timeParse r.sessionTime = some t ∧
    P.eventsInsert (r.event t) = .created id

instance (P : Providers) (r : Request) (t : Time) (id : String) :
    Decidable (CalendarCreated P r t id) := by
  unfold CalendarCreated
  infer_instance

/-- Calendar creation fails for the request: the service cannot be built, or date and time
do not parse, or the insert returns an error (code 401 or any other). -/
def CalendarFailed (P : Providers) (r : Request) : Prop :=
  P.calendarNew = false ∨ timeParse r.sessionTime = none ∨
    ∃ t, timeParse r.sessionTime = some t ∧
      (P.eventsInsert (r.event t) = .unauthorized ∨ P.eventsInsert (r.event t) = .failed)

/-- The calls one run of `reservationHandler` appended to the trace. -/
def callsOf (P : Providers) (w : World) (r : Request) : List Call :=
  (reservationHandler P w r).2.trace.drop w.trace.length

/-- Providers that all succeed; every created event gets the id `evt-1`. -/
def okProviders : Providers :=
  { calendarNew := true
    eventsInsert := fun _ => .created "evt-1"
    dbExec := fun _ => true
    gmailNew := true
    gmailSend := fun _ _ _ => true
    dbQuery := fun _ => true
    rowsScan := fun _ => true }

/-- A well-formed booking for `2024-06-01` at `11:00`. -/
def sampleRequest : Request :=
  { method := "POST", nom := "Martin", prenom := "Lea", email := "foo@bar.com",
    telephone := "0601020304", type_session := "portrait", date_session := "2024-06-01",
    heure_session := "11:00", nb_personnes := "", message := "" }

/-- Providers whose calendar insert fails with a provider error; the rest succeeds. -/
def calendarDownProviders : Providers := { okProviders with eventsInsert := fun _ => .failed }

/-- Providers whose store write fails; the rest succeeds. -/
def storeDownProviders : Providers := { okProviders with dbExec := fun _ => false }

/-- Providers whose mail sends both fail; the rest succeeds. -/
def mailDownProviders : Providers := { okProviders with gmailSend := fun _ _ _ => false }

/-- The instant `2024-06-01T11:00:00`. -/
def sampleTime : Time := ⟨2024, 6, 1, 11, 0, 0, 0⟩

/-- A booking that passes validation for `2024-06-01` at `10:30`, a time outside the
catalog. -/
def offCatalogRequest : Request := { sampleRequest with heure_session := "10:30" }

/-- Every character of the list is an ASCII decimal digit. -/
def Digits (l : List Char) : Prop := ∀ c ∈ l, isDigitChar c = true

/-- A time of day written `H:MM` or `HH:MM`: one or two digits, a colon, two digits. -/
def ClockText (s : List Char) : Prop :=
  ∃ hh mi : List Char, s = hh ++ ':' :: mi ∧ (hh.length = 1 ∨ hh.length = 2) ∧
    mi.length = 2 ∧ Digits hh ∧ Digits mi

/-- A date written `YYYY-MM-DD`: four digits, a dash, two digits, a dash, two digits. -/
def DateText (s : List Char) : Prop :=
  ∃ yy mo dd : List Char, s = yy ++ '-' :: (mo ++ '-' :: dd) ∧ yy.length = 4 ∧
    mo.length = 2 ∧ dd.length = 2 ∧ Digits yy ∧ Digits mo ∧ Digits dd

/-! ## Availability calculator: proofs -/

theorem mapGet_foldl_mapSet (reserved : List String) (m : List (String × Bool)) (k : String) :
    mapGet (reserved.foldl (fun m heure => mapSet m heure true) m) k =
      (decide (k ∈ reserved) || mapGet m k) := by
  induction reserved generalizing m with
  | nil => simp
  | cons r rs ih =>
    rw [List.foldl_cons, ih]
    by_cases hk : k = r
    · simp [mapSet, mapGet, hk]
    · by_cases hm : k ∈ rs <;> simp [mapSet, mapGet, hk, hm]

theorem foldl_append_if (p : String → Bool) (catalog acc : List String) :
    catalog.foldl (fun available heure => if p heure then available ++ [heure] else available)
      acc = acc ++ catalog.filter p := by
  induction catalog generalizing acc with
  | nil => simp
  | cons c cs ih =>
    rw [List.foldl_cons, ih]
    by_cases hp : p c <;> simp [hp]

theorem filterAvailableHeures_eq_filter (catalog booked : List String) :
    filterAvailableHeures catalog booked = catalog.filter (fun heure => decide (heure ∉ booked)) := by
  unfold filterAvailableHeures
  simp only []
  rw [foldl_append_if (fun heure =>
    !mapGet (booked.foldl (fun m heure => mapSet m heure true) []) heure)]
  rw [List.nil_append]
  apply List.filter_congr
  intro h _
  rw [mapGet_foldl_mapSet]
  simp [mapGet]

theorem defaultHeures_nodup : defaultHeures.Nodup := by decide

/-- C1: `filterAvailableHeures catalog booked` is the catalog filtered by non-membership in
`booked`: a sub-sequence of the catalog in catalog order, holding no slot of `booked` and
every catalog slot outside `booked`; on the system catalog `defaultHeures` it has no
duplicates, and bookings `11:00`, `17:00` leave `09:00`, `13:00`, `15:00`, `19:00`. -/
theorem filterAvailableHeures_spec (catalog booked : List String) :
    filterAvailableHeures catalog booked
        = catalog.filter (fun heure => decide (heure ∉ booked)) ∧
      (filterAvailableHeures catalog booked).Sublist catalog ∧
      (∀ heure ∈ filterAvailableHeures catalog booked, heure ∉ booked) ∧
      (∀ heure ∈ catalog, heure ∉ booked → heure ∈ filterAvailableHeures catalog booked) ∧
      (filterAvailableHeures defaultHeures booked).Nodup ∧
      filterAvailableHeures defaultHeures ["11:00", "17:00"]
        = ["09:00", "13:00", "15:00", "19:00"] := by
  refine ⟨filterAvailableHeures_eq_filter catalog booked, ?_, ?_, ?_, ?_, by decide⟩
  · rw [filterAvailableHeures_eq_filter]
    exact List.filter_sublist catalog
  · intro heure hmem
    rw [filterAvailableHeures_eq_filter, List.mem_filter] at hmem
    exact of_decide_eq_true hmem.2
  · intro heure hcat hnot
    rw [filterAvailableHeures_eq_filter, List.mem_filter]
    exact ⟨hcat, decide_eq_true hnot⟩
  · rw [filterAvailableHeures_eq_filter]
    exact defaultHeures_nodup.filter _

/-- C2: the result of `filterAvailableHeures` depends only on which catalog slots occur in
the booked list: two booked lists that contain the same catalog slots (whatever their
order, repetitions and entries outside the catalog) give the same result; a booked list
without any catalog slot, the empty list included, gives back the whole catalog. -/
theorem filterAvailableHeures_booked_membership :
    (∀ catalog b1 b2 : List String, (∀ heure ∈ catalog, heure ∈ b1 ↔ heure ∈ b2) →
      filterAvailableHeures catalog b1 = filterAvailableHeures catalog b2) ∧
    (∀ catalog booked : List String, (∀ heure ∈ catalog, heure ∉ booked) →
      filterAvailableHeures catalog booked = catalog) ∧
    (∀ catalog : List String, filterAvailableHeures catalog [] = catalog) := by
  refine ⟨?_, ?_, ?_⟩
  · intro catalog b1 b2 h
    rw [filterAvailableHeures_eq_filter, filterAvailableHeures_eq_filter]
    apply List.filter_congr
    intro heure hmem
    simp [h heure hmem]
  · intro catalog booked h
    rw [filterAvailableHeures_eq_filter, List.filter_eq_self]
    intro heure hmem
    exact decide_eq_true (h heure hmem)
  · intro catalog
    rw [filterAvailableHeures_eq_filter, List.filter_eq_self]
    intro heure _
    simp

theorem filterAvailableHeures_booked_membership_witness :
    filterAvailableHeures defaultHeures ["17:00", "08:00", "11:00", "17:00"]
        = filterAvailableHeures defaultHeures ["11:00", "17:00"] ∧
      filterAvailableHeures defaultHeures ["08:00", "10:30"] = defaultHeures ∧
      filterAvailableHeures defaultHeures [] = defaultHeures :=
  ⟨filterAvailableHeures_booked_membership.1 defaultHeures
      ["17:00", "08:00", "11:00", "17:00"] ["11:00", "17:00"] (by decide),
    filterAvailableHeures_booked_membership.2.1 defaultHeures ["08:00", "10:30"] (by decide),
    filterAvailableHeures_booked_membership.2.2 defaultHeures⟩

/-! ## Email validator: proofs -/

theorem rmatch_none (w : List Char) : Regex.none.rmatch w = false := by
  induction w with
  | nil => rfl
  | cons c cs ih => simpa [Regex.rmatch, Regex.deriv] using ih

theorem rmatch_eps (w : List Char) : Regex.eps.rmatch w = true ↔ w = [] := by
  cases w with
  | nil => simp [Regex.rmatch, Regex.nullable]
  | cons c cs => simp [Regex.rmatch, Regex.deriv, rmatch_none]

theorem rmatch_lit (c : Char) (w : List Char) : (Regex.lit c).rmatch w = true ↔ w = [c] := by
  cases w with
  | nil => simp [Regex.rmatch, Regex.nullable]
  | cons x xs =>
    by_cases hx : x = c
    · simp [Regex.rmatch, Regex.deriv, hx, rmatch_eps]
    · simp [Regex.rmatch, Regex.deriv, hx, rmatch_none]

theorem rmatch_cls (rs : List (Char × Char)) (w : List Char) :
    (Regex.cls rs).rmatch w = true ↔ ∃ c, w = [c] ∧ inClass rs c = true := by
  cases w with
  | nil => simp [Regex.rmatch, Regex.nullable]
  | cons x xs =>
    by_cases hx : inClass rs x = true
    · rw [Regex.rmatch, Regex.deriv, if_pos hx, rmatch_eps]
      constructor
      · intro h
        exact ⟨x, by rw [h], hx⟩
      · rintro ⟨c, hc, _⟩
        exact (List.cons_eq_cons.1 hc).2
    · rw [Regex.rmatch, Regex.deriv, if_neg hx, rmatch_none]
      constructor
      · intro h
        exact absurd h (by simp)
      · rintro ⟨c, hc, hin⟩
        rw [(List.cons_eq_cons.1 hc).1] at hx
        exact absurd hin hx

theorem rmatch_alt (a b : Regex) (w : List Char) :
    (Regex.alt a b).rmatch w = (a.rmatch w || b.rmatch w) := by
  induction w generalizing a b with
  | nil => rfl
  | cons c cs ih => simp only [Regex.rmatch, Regex.deriv, ih]

theorem rmatch_cat (a b : Regex) (w : List Char) :
    (Regex.cat a b).rmatch w = true ↔
      ∃ u v, w = u ++ v ∧ a.rmatch u = true ∧ b.rmatch v = true := by
  induction w generalizing a b with
  | nil =>
    simp only [Regex.rmatch, Regex.nullable, Bool.and_eq_true]
    constructor
    · rintro ⟨ha, hb⟩
      exact ⟨[], [], rfl, ha, hb⟩
    · rintro ⟨u, v, huv, ha, hb⟩
      have hu : u = [] := (List.append_eq_nil.1 huv.symm).1
      have hv : v = [] := (List.append_eq_nil.1 huv.symm).2
      subst hu hv
      exact ⟨ha, hb⟩
  | cons c cs ih =>
    have step : (∃ u v, cs = u ++ v ∧ (a.deriv c).rmatch u = true ∧ b.rmatch v = true) ↔
        ∃ u v, c :: cs = u ++ v ∧ u ≠ [] ∧ a.rmatch u = true ∧ b.rmatch v = true := by
      constructor
      · rintro ⟨u, v, huv, ha, hb⟩
        exact ⟨c :: u, v, by simp [huv], by simp, ha, hb⟩
      · rintro ⟨u, v, huv, hne, ha, hb⟩
        cases u with
        | nil => exact absurd rfl hne
        | cons x xs =>
          rw [List.cons_append, List.cons_eq_cons] at huv
          obtain ⟨hx, hxs⟩ := huv
          subst hx
          exact ⟨xs, v, hxs, ha, hb⟩
    by_cases hn : a.nullable = true
    · simp only [Regex.rmatch, Regex.deriv, hn, if_true, rmatch_alt, Bool.or_eq_true, ih, step]
      constructor
      · rintro (⟨u, v, huv, _, ha, hb⟩ | hb)
        · exact ⟨u, v, huv, ha, hb⟩
        · exact ⟨[], c :: cs, rfl, hn, hb⟩
      · rintro ⟨u, v, huv, ha, hb⟩
        cases u with
        | nil =>
          right
          rw [List.nil_append] at huv
          rw [← huv] at hb
          exact hb
        | cons x xs => exact Or.inl ⟨x :: xs, v, huv, by simp, ha, hb⟩
    · rw [Regex.rmatch, Regex.deriv, if_neg hn, ih, step]
      constructor
      · rintro ⟨u, v, huv, _, ha, hb⟩
        exact ⟨u, v, huv, ha, hb⟩
      · rintro ⟨u, v, huv, ha, hb⟩
        cases u with
        | nil => exact absurd ha hn
        | cons x xs => exact ⟨x :: xs, v, huv, by simp, ha, hb⟩

theorem rmatch_star_cls (rs : List (Char × Char)) (w : List Char) :
    (Regex.star (.cls rs)).rmatch w = true ↔ ∀ c ∈ w, inClass rs c = true := by
  induction w with
  | nil => simp [Regex.rmatch, Regex.nullable]
  | cons x xs ih =>
    by_cases hx : inClass rs x = true
    · rw [Regex.rmatch, Regex.deriv, Regex.deriv, if_pos hx, rmatch_cat]
      constructor
      · rintro ⟨u, v, huv, hu, hv⟩
        rw [rmatch_eps] at hu
        subst hu
        rw [List.nil_append] at huv
        subst huv
        intro c hc
        rcases List.mem_cons.1 hc with h | h
        · exact h ▸ hx
        · exact ih.1 hv c h
      · intro h
        exact ⟨[], xs, rfl, rfl, ih.2 (fun c hc => h c (List.mem_cons_of_mem _ hc))⟩
    · rw [Regex.rmatch, Regex.deriv, Regex.deriv, if_neg hx, rmatch_cat]
      constructor
      · rintro ⟨u, v, _, hu, _⟩
        rw [rmatch_none] at hu
        exact absurd hu (by simp)
      · intro h
        exact absurd (h x (List.mem_cons_self _ _)) hx

theorem rmatch_plus_cls (rs : List (Char × Char)) (w : List Char) :
    (Regex.plus (.cls rs)).rmatch w = true ↔ w ≠ [] ∧ ∀ c ∈ w, inClass rs c = true := by
  unfold Regex.plus
  rw [rmatch_cat]
  constructor
  · rintro ⟨u, v, huv, hu, hv⟩
    obtain ⟨c, hc, hin⟩ := (rmatch_cls rs u).1 hu
    subst hc huv
    refine ⟨by simp, ?_⟩
    intro d hd
    rcases List.mem_cons.1 hd with h | h
    · exact h ▸ hin
    · exact (rmatch_star_cls rs v).1 hv d h
  · rintro ⟨hne, hall⟩
    cases w with
    | nil => exact absurd rfl hne
    | cons x xs =>
      refine ⟨[x], xs, rfl, (rmatch_cls rs [x]).2 ⟨x, rfl, hall x (List.mem_cons_self _ _)⟩, ?_⟩
      exact (rmatch_star_cls rs xs).2 (fun c hc => hall c (List.mem_cons_of_mem _ hc))

theorem rmatch_atLeastTwo_cls (rs : List (Char × Char)) (w : List Char) :
    (Regex.atLeastTwo (.cls rs)).rmatch w = true ↔
      2 ≤ w.length ∧ ∀ c ∈ w, inClass rs c = true := by
  have hplus := rmatch_plus_cls rs
  unfold Regex.plus at hplus
  unfold Regex.atLeastTwo
  rw [rmatch_cat]
  constructor
  · rintro ⟨u, v, huv, hu, hv⟩
    obtain ⟨c, hc, hin⟩ := (rmatch_cls rs u).1 hu
    obtain ⟨hne, hall⟩ := (hplus v).1 hv
    subst hc huv
    constructor
    · have : 0 < v.length := List.length_pos.2 hne
      simp only [List.singleton_append, List.length_cons]
      omega
    · intro d hd
      rcases List.mem_cons.1 hd with h | h
      · exact h ▸ hin
      · exact hall d h
  · rintro ⟨hlen, hall⟩
    cases w with
    | nil => simp at hlen
    | cons x xs =>
      refine ⟨[x], xs, rfl, (rmatch_cls rs [x]).2 ⟨x, rfl, hall x (List.mem_cons_self _ _)⟩, ?_⟩
      refine (hplus xs).2 ⟨?_, fun c hc => hall c (List.mem_cons_of_mem _ hc)⟩
      intro hnil
      subst hnil
      simp at hlen

theorem char_between_self (a c : Char) : (a ≤ c ∧ c ≤ a) ↔ c = a := by
  constructor
  · intro h
    exact le_antisymm h.2 h.1
  · intro h
    subst h
    exact ⟨le_refl _, le_refl _⟩

theorem inClass_localClass (c : Char) :
    inClass localClass c = true ↔
      (('a' ≤ c ∧ c ≤ 'z') ∨ ('A' ≤ c ∧ c ≤ 'Z') ∨ ('0' ≤ c ∧ c ≤ '9') ∨
        c = '.' ∨ c = '_' ∨ c = '%' ∨ c = '+' ∨ c = '-') := by
  simp [inClass, localClass, char_between_self]

theorem inClass_domainClass (c : Char) :
    inClass domainClass c = true ↔
      (('a' ≤ c ∧ c ≤ 'z') ∨ ('A' ≤ c ∧ c ≤ 'Z') ∨ ('0' ≤ c ∧ c ≤ '9') ∨
        c = '.' ∨ c = '-') := by
  simp [inClass, domainClass, char_between_self]

theorem inClass_letterClass (c : Char) :
    inClass letterClass c = true ↔ (('a' ≤ c ∧ c ≤ 'z') ∨ ('A' ≤ c ∧ c ≤ 'Z')) := by
  simp [inClass, letterClass]

theorem emailRe_rmatch_iff (s : List Char) : emailRe.rmatch s = true ↔ EmailForm s := by
  unfold emailRe EmailForm
  simp only [rmatch_cat, rmatch_lit, rmatch_plus_cls, rmatch_atLeastTwo_cls,
    inClass_localClass, inClass_domainClass, inClass_letterClass]
  constructor
  · rintro ⟨L, r1, hs, ⟨hL, hLc⟩, a, r2, hr1, ha, D, r3, hr2, ⟨hD, hDc⟩, d, T, hr3, hd, hT, hTc⟩
    subst ha hd
    refine ⟨L, D, T, ?_, hL, hLc, hD, hDc, hT, hTc⟩
    rw [hs, hr1, hr2, hr3]
    simp
  · rintro ⟨L, D, T, hs, hL, hLc, hD, hDc, hT, hTc⟩
    exact ⟨L, '@' :: (D ++ '.' :: T), hs, ⟨hL, hLc⟩, ['@'], D ++ '.' :: T, rfl, rfl,
      D, '.' :: T, rfl, ⟨hD, hDc⟩, ['.'], T, rfl, rfl, hT, hTc⟩

theorem emailForm_dot_after_at (s pre post : List Char) (hform : EmailForm s)
    (hsplit : s = pre ++ '@' :: post) : '.' ∈ post := by
  obtain ⟨L, D, T, hs, _, hLc, _, hDc, _, hTc⟩ := hform
  have hL : '@' ∉ L := fun h => absurd (hLc '@' h) (by decide)
  have hR : '@' ∉ D ++ '.' :: T := by
    intro h
    rcases List.mem_append.1 h with h | h
    · exact absurd (hDc '@' h) (by decide)
    · rcases List.mem_cons.1 h with h | h
      · exact absurd h (by decide)
      · exact absurd (hTc '@' h) (by decide)
  rw [hs] at hsplit
  obtain ⟨_, _, hpost⟩ := (List.append_cons_inj_of_not_mem hL hR).1 hsplit
  rw [← hpost]
  simp

/-- C4: `isEmailValid s` holds exactly when the whole of `s` reads `L@D.T` with `L` a
non-empty run over `[A-Za-z0-9._%+-]`, `D` a non-empty run over `[A-Za-z0-9.-]` and `T` at
least two ASCII letters; hence a string with an `@` that no `.` follows is rejected, as is a
string without `@`; `foo@bar` is rejected and `foo@bar.com` is accepted. -/
theorem isEmailValid_spec :
    (∀ s : String, isEmailValid s = true ↔ EmailForm s.toList) ∧
    (∀ (s : String) (pre post : List Char), s.toList = pre ++ '@' :: post → '.' ∉ post →
      isEmailValid s = false) ∧
    (∀ s : String, '@' ∉ s.toList → isEmailValid s = false) ∧
    isEmailValid "foo@bar" = false ∧ isEmailValid "foo@bar.com" = true := by
  refine ⟨fun s => emailRe_rmatch_iff s.toList, ?_, ?_, by decide, by decide⟩
  · intro s pre post hsplit hdot
    cases hv : isEmailValid s with
    | false => rfl
    | true =>
      exact absurd (emailForm_dot_after_at _ pre post ((emailRe_rmatch_iff _).1 hv) hsplit) hdot
  · intro s hat
    cases hv : isEmailValid s with
    | false => rfl
    | true =>
      obtain ⟨L, D, T, hs, _⟩ := (emailRe_rmatch_iff _).1 hv
      exact absurd (by rw [hs]; simp) hat

theorem isEmailValid_spec_witness :
    (isEmailValid "foo@bar.com" = true ↔ EmailForm "foo@bar.com".toList) ∧
      isEmailValid "foo@bar" = false ∧ isEmailValid "foobar.com" = false :=
  ⟨isEmailValid_spec.1 "foo@bar.com",
    isEmailValid_spec.2.1 "foo@bar" "foo".toList "bar".toList (by decide) (by decide),
    isEmailValid_spec.2.2.1 "foobar.com" (by decide)⟩

/-! ## Date and time parsing: proofs -/

theorem getnum_fixed_inv (s rest : List Char) (n : Nat) (h : getnum s true = some (n, rest)) :
    ∃ a b, s = a :: b :: rest ∧ isDigitChar a = true ∧ isDigitChar b = true := by
  match s with
  | [] => simp [getnum, isDigit] at h
  | [a] => simp [getnum, isDigit] at h
  | a :: b :: tl =>
    unfold getnum at h
    simp only [isDigit, List.getElem?_cons_zero, List.getElem?_cons_succ] at h
    cases ha : isDigitChar a <;> cases hb : isDigitChar b <;> simp [ha, hb] at h
    exact ⟨a, b, by rw [h.2], ha, hb⟩

theorem getnum_free_inv (s rest : List Char) (n : Nat) (h : getnum s false = some (n, rest)) :
    ∃ ds, s = ds ++ rest ∧ (ds.length = 1 ∨ ds.length = 2) ∧
      (∀ c ∈ ds, isDigitChar c = true) := by
  match s with
  | [] => simp [getnum, isDigit] at h
  | [a] =>
    unfold getnum at h
    simp only [isDigit, List.getElem?_cons_zero] at h
    cases ha : isDigitChar a <;> simp [ha] at h
    exact ⟨[a], by simp [← h.2], Or.inl rfl, by simpa using ha⟩
  | a :: b :: tl =>
    unfold getnum at h
    simp only [isDigit, List.getElem?_cons_zero, List.getElem?_cons_succ] at h
    cases ha : isDigitChar a <;> cases hb : isDigitChar b <;> simp [ha, hb] at h
    · exact ⟨[a], by simp [← h.2], Or.inl rfl, by simpa using ha⟩
    · exact ⟨[a, b], by simp [← h.2], Or.inr rfl, by simp [ha, hb]⟩

theorem skip_single_inv (s rest : List Char) (c : Char) (h : skip s [c] = some rest) :
    s = c :: rest := by
  match s with
  | [] => simp [skip] at h
  | v :: tl =>
    unfold skip at h
    by_cases hv : v = c
    · simp [hv, skip] at h
      rw [hv, h]
    · simp [hv] at h

theorem atoi_inv (s : List Char) (y : Nat) (h : atoi s = some y) :
    ∀ c ∈ s, isDigitChar c = true := by
  unfold atoi at h
  by_cases hall : s.all isDigitChar = true
  · simpa using hall
  · simp [hall] at h

theorem fracSecond_inv (v rest : List Char) (ns : Nat) (h : fracSecond v = (ns, rest)) :
    rest = v ∨ ∃ p ds, v = p :: (ds ++ rest) ∧ commaOrPeriod p = true ∧
      (∀ c ∈ ds, isDigitChar c = true) := by
  unfold fracSecond at h
  split_ifs at h with hc
  · right
    match v with
    | [] => simp at hc
    | p :: tl =>
      simp only [List.headD_cons, Bool.and_eq_true] at hc
      simp only [List.drop_one, List.tail_cons, Prod.mk.injEq] at h
      refine ⟨p, tl.takeWhile isDigitChar, ?_, hc.1.2, ?_⟩
      · rw [← h.2, List.takeWhile_append_dropWhile]
      · intro c hcmem
        exact List.mem_takeWhile_imp hcmem
  · left
    simp only [Prod.mk.injEq] at h
    exact h.2.symm

theorem append_cons_inj_last {a : Char} {x₁ x₂ z₁ z₂ : List Char} (h1 : a ∉ z₁)
    (h2 : a ∉ z₂) (h : x₁ ++ a :: z₁ = x₂ ++ a :: z₂) : x₁ = x₂ ∧ z₁ = z₂ := by
  rcases List.append_eq_append_iff.1 h with ⟨m, hx, hz⟩ | ⟨m, hx, hz⟩
  · cases m with
    | nil =>
      simp only [List.nil_append, List.cons.injEq, true_and] at hz
      exact ⟨by simpa using hx.symm, hz⟩
    | cons b m' =>
      simp only [List.cons_append, List.cons.injEq] at hz
      exact absurd (by rw [hz.2]; simp) h1
  · cases m with
    | nil =>
      simp only [List.nil_append, List.cons.injEq, true_and] at hz
      exact ⟨by simpa using hx, hz.symm⟩
    | cons b m' =>
      simp only [List.cons_append, List.cons.injEq] at hz
      exact absurd (by rw [hz.2]; simp) h2

theorem digits_not_mem (c : Char) (hc : isDigitChar c = false) (l : List Char)
    (hl : Digits l) : c ∉ l := by
  intro hmem
  rw [hl c hmem] at hc
  exact absurd hc (by simp)

theorem timeParse_inv (s : String) (t : Time) (h : timeParse s = some t) :
    ∃ yy mo dd hh mi ss frac : List Char,
      s.toList = (yy ++ '-' :: (mo ++ '-' :: dd)) ++
        'T' :: ((hh ++ ':' :: mi) ++ ':' :: (ss ++ frac)) ∧
      yy.length = 4 ∧ mo.length = 2 ∧ dd.length = 2 ∧ (hh.length = 1 ∨ hh.length = 2) ∧
      mi.length = 2 ∧ ss.length = 2 ∧
      Digits yy ∧ Digits mo ∧ Digits dd ∧ Digits hh ∧ Digits mi ∧ Digits ss ∧
      (frac = [] ∨ ∃ p ds, frac = p :: ds ∧ commaOrPeriod p = true ∧ Digits ds) ∧
      t.hour < 24 ∧ t.min < 60 := by
  unfold timeParse at h
  simp only [] at h
  repeat' split at h
  all_goals first
    | (exfalso; revert h; simp; done)
    | skip
  rename_i hlen _ year hyear _ v9 hs1 _ month v8 hmonth hmr _ v7 hs2 _ day v6 hday _ v5 hsT
    _ hour v4 hhour hhr _ v3 hs3 _ minute v2 hmin hminr _ v1 hs4 _ sec v0 hsec hsecr hfrac hdr
  obtain ⟨m1, m2, e8, hm1, hm2⟩ := getnum_fixed_inv _ _ _ hmonth
  obtain ⟨d1, d2, e6, hd1, hd2⟩ := getnum_fixed_inv _ _ _ hday
  obtain ⟨hh, e4, hhlen, hhd⟩ := getnum_free_inv _ _ _ hhour
  obtain ⟨i1, i2, e2, hi1, hi2⟩ := getnum_fixed_inv _ _ _ hmin
  obtain ⟨s1, s2, e0, hs1', hs2'⟩ := getnum_fixed_inv _ _ _ hsec
  have e9 := skip_single_inv _ _ _ hs1
  have e7 := skip_single_inv _ _ _ hs2
  have e5 := skip_single_inv _ _ _ hsT
  have e3 := skip_single_inv _ _ _ hs3
  have e1 := skip_single_inv _ _ _ hs4
  have hyd := atoi_inv _ _ hyear
  have hl4 : 4 ≤ s.toList.length := by
    simp only [Bool.or_eq_true, decide_eq_true_eq, not_or, not_lt] at hlen
    exact hlen.1
  have hrest : (fracSecond v0).2 = [] := by
    cases hv : (fracSecond v0).2 with
    | nil => rfl
    | cons a b => simp [hv] at hfrac
  have hfr : v0 = [] ∨ ∃ p ds, v0 = p :: ds ∧ commaOrPeriod p = true ∧ Digits ds := by
    rcases fracSecond_inv v0 (fracSecond v0).2 (fracSecond v0).1 rfl with h0 | ⟨p, ds, hv, hp, hds⟩
    · left
      rw [← h0, hrest]
    · right
      refine ⟨p, ds, ?_, hp, hds⟩
      rw [hv, hrest, List.append_nil]
  have htime : t.hour = hour ∧ t.min = minute := by
    simp only [Option.some.injEq] at h
    rw [← h]
    exact ⟨rfl, rfl⟩
  refine ⟨s.toList.take 4, [m1, m2], [d1, d2], hh, [i1, i2], [s1, s2], v0, ?_, ?_, rfl, rfl,
    hhlen, rfl, rfl, hyd, ?_, ?_, hhd, ?_, ?_, hfr, ?_, ?_⟩
  · calc s.toList = s.toList.take 4 ++ s.toList.drop 4 := (List.take_append_drop 4 _).symm
      _ = _ := by
        rw [e9, e8, e7, e6, e5, e4, e3, e2, e1, e0]
        simp
  · rw [List.length_take, Nat.min_eq_left hl4]
  · intro c hc
    simp only [List.mem_cons, List.mem_singleton, List.not_mem_nil, or_false] at hc
    rcases hc with rfl | rfl
    · exact hm1
    · exact hm2
  · intro c hc
    simp only [List.mem_cons, List.mem_singleton, List.not_mem_nil, or_false] at hc
    rcases hc with rfl | rfl
    · exact hd1
    · exact hd2
  · intro c hc
    simp only [List.mem_cons, List.mem_singleton, List.not_mem_nil, or_false] at hc
    rcases hc with rfl | rfl
    · exact hi1
    · exact hi2
  · intro c hc
    simp only [List.mem_cons, List.mem_singleton, List.not_mem_nil, or_false] at hc
    rcases hc with rfl | rfl
    · exact hs1'
    · exact hs2'
  · rw [htime.1]
    simpa using hhr
  · rw [htime.2]
    simpa using hminr

theorem sessionTime_shape (date heure : String) (t : Time)
    (h : timeParse (date ++ "T" ++ heure ++ ":00") = some t) :
    DateText date.toList ∧ ClockText heure.toList ∧ t.hour < 24 ∧ t.min < 60 := by
  obtain ⟨yy, mo, dd, hh, mi, ss, frac, hs, hyl, hml, hdl, hhl, hil, hsl, hyd, hmd, hdd, hhd,
    hid, hsd, hfrac, hhour, hmin⟩ := timeParse_inv _ t h
  have hval : (date ++ "T" ++ heure ++ ":00").toList
      = date.toList ++ 'T' :: (heure.toList ++ ':' :: ['0', '0']) := by
    simp [String.toList]
  rw [hval] at hs
  have hTA : 'T' ∉ yy ++ '-' :: (mo ++ '-' :: dd) := by
    simp only [List.mem_append, List.mem_cons, not_or]
    exact ⟨digits_not_mem _ (by decide) _ hyd, by decide,
      digits_not_mem _ (by decide) _ hmd, by decide, digits_not_mem _ (by decide) _ hdd⟩
  have hfracT : ∀ c : Char, isDigitChar c = false → commaOrPeriod c = false → c ∉ frac := by
    intro c hc1 hc2
    rcases hfrac with h0 | ⟨p, ds, hp, hcp, hds⟩
    · rw [h0]
      simp
    · rw [hp]
      simp only [List.mem_cons, not_or]
      refine ⟨?_, digits_not_mem _ hc1 _ hds⟩
      intro hcp'
      rw [← hcp', hc2] at hcp
      exact absurd hcp (by simp)
  have hTB : 'T' ∉ (hh ++ ':' :: mi) ++ ':' :: (ss ++ frac) := by
    simp only [List.mem_append, List.mem_cons, not_or]
    exact ⟨⟨digits_not_mem _ (by decide) _ hhd, by decide,
      digits_not_mem _ (by decide) _ hid⟩, by decide,
      digits_not_mem _ (by decide) _ hsd, hfracT _ (by decide) (by decide)⟩
  obtain ⟨hdate, _, hrest⟩ := (List.append_cons_inj_of_not_mem hTA hTB).1 hs.symm
  have hcolon1 : ':' ∉ ss ++ frac := by
    simp only [List.mem_append, not_or]
    exact ⟨digits_not_mem _ (by decide) _ hsd, hfracT _ (by decide) (by decide)⟩
  have hcolon2 : ':' ∉ ['0', '0'] := by decide
  obtain ⟨hclock, _⟩ := append_cons_inj_last hcolon1 hcolon2 hrest
  exact ⟨⟨yy, mo, dd, hdate.symm, hyl, hml, hdl, hyd, hmd, hdd⟩,
    ⟨hh, mi, hclock.symm, hhl, hil, hhd, hid⟩, hhour, hmin⟩

/-! ## Reservation workflow: proofs -/

theorem reservationHandler_rejected (P : Providers) (w : World) (r : Request)
    (hpost : r.method = "POST")
    (hbad : (r.nom = "" ∨ r.prenom = "" ∨ r.email = "" ∨ r.telephone = "" ∨
      r.type_session = "" ∨ r.date_session = "" ∨ r.heure_session = "") ∨
      isEmailValid r.email = false) :
    (reservationHandler P w r).1.status = 400 ∧ (reservationHandler P w r).2 = w := by
  unfold reservationHandler
  rw [if_pos hpost]
  by_cases hm : r.nom = "" ∨ r.prenom = "" ∨ r.email = "" ∨ r.telephone = "" ∨
      r.type_session = "" ∨ r.date_session = "" ∨ r.heure_session = ""
  · rw [if_pos hm]
    exact ⟨rfl, rfl⟩
  · rw [if_neg hm]
    have he : isEmailValid r.email = false := hbad.resolve_left hm
    simp [he, Response.status]

theorem sendEmailWithGmail_world (P : Providers) (w : World) (recipient subject body : String) :
    (sendEmailWithGmail P w recipient subject body).2
      = { w with trace := w.trace ++ [Call.sendEmail recipient subject body] } := by
  unfold sendEmailWithGmail
  split_ifs <;> rfl

theorem reservationHandler_validated (P : Providers) (w : World) (r : Request)
    (hv : Validated r) :
    reservationHandler P w r =
      match addEventToCalendar P w r.nom r.prenom r.email r.telephone r.type_session
          r.date_session r.heure_session r.message r.nb_personnes with
      | (.error err, w1) =>
        (.error ("Erreur lors de l'ajout de l'événement au calendrier : " ++ err) 500, w1)
      | (.ok eventID, w1) =>
        (.redirect "/confirmation" 303,
          { w1 with trace := w1.trace ++ [r.clientMail, r.ownerMail eventID] }) := by
  obtain ⟨hpost, h1, h2, h3, h4, h5, h6, h7, he⟩ := hv
  unfold reservationHandler
  rw [if_pos hpost, if_neg (by simp [h1, h2, h3, h4, h5, h6, h7])]
  simp only [he, Bool.not_true, Bool.false_eq_true, if_false]
  split <;> simp_all [sendEmailWithGmail_world, Request.clientMail, Request.ownerMail]

theorem addEventToCalendar_failed (P : Providers) (w : World) (r : Request)
    (hf : CalendarFailed P r) :
    ∃ err calls, addEventToCalendar P w r.nom r.prenom r.email r.telephone r.type_session
        r.date_session r.heure_session r.message r.nb_personnes
      = (.error err, { w with trace := w.trace ++ calls }) ∧
      (calls = [] ∨ ∃ t, calls = [Call.eventsInsert (r.event t)]) := by
  unfold addEventToCalendar
  by_cases hn : P.calendarNew = true
  · rcases hf with h | h | ⟨t, ht, h | h⟩
    · rw [hn] at h
      exact absurd h (by simp)
    · refine ⟨"erreur technique : format de date ou d'heure invalide", [], ?_, Or.inl rfl⟩
      simp only [Request.sessionTime] at h
      simp [hn, h]
    · refine ⟨"erreur technique : impossible de traiter votre demande pour le moment",
        [Call.eventsInsert (r.event t)], ?_, Or.inr ⟨t, rfl⟩⟩
      simp only [Request.sessionTime, Request.event] at ht h
      simp [hn, ht, h, Request.event]
    · refine ⟨"erreur technique : impossible de traiter votre demande",
        [Call.eventsInsert (r.event t)], ?_, Or.inr ⟨t, rfl⟩⟩
      simp only [Request.sessionTime, Request.event] at ht h
      simp [hn, ht, h, Request.event]
  · exact ⟨"erreur technique : impossible de traiter votre demande", [], by simp [hn],
      Or.inl rfl⟩

theorem addEventToCalendar_created (P : Providers) (w : World) (r : Request) (t : Time)
    (id : String) (hc : CalendarCreated P r t id) :
    addEventToCalendar P w r.nom r.prenom r.email r.telephone r.type_session
        r.date_session r.heure_session r.message r.nb_personnes
      = if P.dbExec (r.row id) then
          (.ok id, { reservations := w.reservations ++ [r.row id],
                     trace := w.trace ++ [Call.eventsInsert (r.event t), Call.dbExec (r.row id)] })
        else
          (.error "erreur technique : impossible de traiter votre demande",
            { w with
              trace := w.trace ++ [Call.eventsInsert (r.event t), Call.dbExec (r.row id)] }) := by
  obtain ⟨hn, ht, hi⟩ := hc
  simp only [Request.sessionTime, Request.event] at ht hi
  unfold addEventToCalendar
  simp only [hn, ht, hi, Request.row, Request.event]
  by_cases hd : P.dbExec ⟨r.nom, r.prenom, r.email, r.telephone, r.type_session,
      r.date_session, r.heure_session, r.nb_personnes, r.message, id⟩ = true
  · simp [hd]
  · simp [hd]

theorem addEventToCalendar_frame (P : Providers) (w : World)
    (nom prenom email telephone typeSession dateSession heureSession message
      nb_personnes : String) :
    addEventToCalendar P w nom prenom email telephone typeSession dateSession heureSession
        message nb_personnes
      = ((addEventToCalendar P ⟨[], []⟩ nom prenom email telephone typeSession dateSession
            heureSession message nb_personnes).1,
          { reservations := w.reservations ++
              (addEventToCalendar P ⟨[], []⟩ nom prenom email telephone typeSession
                dateSession heureSession message nb_personnes).2.reservations,
            trace := w.trace ++
              (addEventToCalendar P ⟨[], []⟩ nom prenom email telephone typeSession
                dateSession heureSession message nb_personnes).2.trace }) := by
  unfold addEventToCalendar
  by_cases hn : P.calendarNew = true
  · simp only [hn, Bool.not_true, Bool.false_eq_true, if_false]
    cases timeParse (dateSession ++ "T" ++ heureSession ++ ":00") with
    | none => simp
    | some t =>
      simp only []
      cases P.eventsInsert (mkEvent nom email telephone typeSession message nb_personnes t) with
      | unauthorized => simp
      | failed => simp
      | created id =>
        simp only []
        split_ifs <;> simp
  · simp [hn]

theorem reservationHandler_frame (P : Providers) (w : World) (r : Request) :
    reservationHandler P w r
      = ((reservationHandler P ⟨[], []⟩ r).1,
          { reservations := w.reservations ++ (reservationHandler P ⟨[], []⟩ r).2.reservations,
            trace := w.trace ++ (reservationHandler P ⟨[], []⟩ r).2.trace }) := by
  unfold reservationHandler
  split_ifs
  · simp
  · simp
  · rw [addEventToCalendar_frame P w]
    cases addEventToCalendar P ⟨[], []⟩ r.nom r.prenom r.email r.telephone r.type_session
        r.date_session r.heure_session r.message r.nb_personnes with
    | mk res w1 =>
      cases res with
      | error err => simp
      | ok id => simp [sendEmailWithGmail_world]
  · simp

theorem callsOf_eq (P : Providers) (w : World) (r : Request) :
    callsOf P w r = (reservationHandler P ⟨[], []⟩ r).2.trace := by
  unfold callsOf
  rw [reservationHandler_frame P w r]
  simp

theorem trace_eq_append_callsOf (P : Providers) (w : World) (r : Request) :
    (reservationHandler P w r).2.trace = w.trace ++ callsOf P w r := by
  rw [callsOf_eq, reservationHandler_frame P w r]

theorem reservationHandler_created (P : Providers) (w : World) (r : Request) (t : Time)
    (id : String) (hv : Validated r) (hc : CalendarCreated P r t id) :
    reservationHandler P w r =
      if P.dbExec (r.row id) then
        (.redirect "/confirmation" 303,
          { reservations := w.reservations ++ [r.row id],
            trace := w.trace ++ [Call.eventsInsert (r.event t), Call.dbExec (r.row id),
              r.clientMail, r.ownerMail id] })
      else
        (.error ("Erreur lors de l'ajout de l'événement au calendrier : " ++
            "erreur technique : impossible de traiter votre demande") 500,
          { w with
            trace := w.trace ++ [Call.eventsInsert (r.event t), Call.dbExec (r.row id)] }) := by
  rw [reservationHandler_validated P w r hv, addEventToCalendar_created P w r t id hc]
  split_ifs <;> simp

theorem reservationHandler_calendarFailed (P : Providers) (w : World) (r : Request)
    (hv : Validated r) (hf : CalendarFailed P r) :
    ∃ err calls, reservationHandler P w r =
        (.error ("Erreur lors de l'ajout de l'événement au calendrier : " ++ err) 500,
          { w with trace := w.trace ++ calls }) ∧
      (calls = [] ∨ ∃ t, calls = [Call.eventsInsert (r.event t)]) := by
  obtain ⟨err, calls, hadd, hcalls⟩ := addEventToCalendar_failed P w r hf
  refine ⟨err, calls, ?_, hcalls⟩
  rw [reservationHandler_validated P w r hv, hadd]

theorem calendar_created_or_failed (P : Providers) (r : Request) :
    CalendarFailed P r ∨ ∃ t id, CalendarCreated P r t id := by
  unfold CalendarFailed CalendarCreated
  cases hn : P.calendarNew with
  | false => exact Or.inl (Or.inl rfl)
  | true =>
    cases ht : timeParse r.sessionTime with
    | none => exact Or.inl (Or.inr (Or.inl rfl))
    | some t =>
      cases hi : P.eventsInsert (r.event t) with
      | created id => exact Or.inr ⟨t, id, rfl, rfl, hi⟩
      | unauthorized => exact Or.inl (Or.inr (Or.inr ⟨t, rfl, Or.inl hi⟩))
      | failed => exact Or.inl (Or.inr (Or.inr ⟨t, rfl, Or.inr hi⟩))

theorem validated_or_rejected (r : Request) (hpost : r.method = "POST") :
    Validated r ∨
      ((r.nom = "" ∨ r.prenom = "" ∨ r.email = "" ∨ r.telephone = "" ∨
        r.type_session = "" ∨ r.date_session = "" ∨ r.heure_session = "") ∨
        isEmailValid r.email = false) := by
  unfold Validated
  by_cases h1 : r.nom = ""
  · simp [h1]
  by_cases h2 : r.prenom = ""
  · simp [h2]
  by_cases h3 : r.email = ""
  · simp [h3]
  by_cases h4 : r.telephone = ""
  · simp [h4]
  by_cases h5 : r.type_session = ""
  · simp [h5]
  by_cases h6 : r.date_session = ""
  · simp [h6]
  by_cases h7 : r.heure_session = ""
  · simp [h7]
  cases he : isEmailValid r.email with
  | false => simp
  | true => exact Or.inl ⟨hpost, h1, h2, h3, h4, h5, h6, h7, rfl⟩

theorem validated_status (P : Providers) (w : World) (r : Request) (hv : Validated r) :
    (reservationHandler P w r).1.status = 500 ∨ (reservationHandler P w r).1.status = 303 := by
  rcases calendar_created_or_failed P r with hf | ⟨t, id, hc⟩
  · obtain ⟨err, calls, h, _⟩ := reservationHandler_calendarFailed P w r hv hf
    rw [h]
    exact Or.inl rfl
  · rw [reservationHandler_created P w r t id hv hc]
    split_ifs
    · exact Or.inr rfl
    · exact Or.inl rfl

theorem scanRows_all (Q : Providers) (hscan : ∀ i, Q.rowsScan i = true) (rows : List String)
    (i : Nat) (acc : List String) : scanRows Q i rows acc = some (acc ++ rows) := by
  induction rows generalizing i acc with
  | nil => simp [scanRows]
  | cons h rest ih => simp [scanRows, hscan i, ih]

/-- C3: a `POST` booking request is answered with status 400 exactly when one of the seven
required form values (`nom`, `prenom`, `email`, `telephone`, `type_session`,
`date_session`, `heure_session`) is empty or the email fails `isEmailValid`; a rejected
request leaves the world as it was (no calendar insert, no store write, no email attempt);
the values of `nb_personnes` and `message`, empty or not, never cause rejection. -/
theorem reservationHandler_rejects_iff (P : Providers) (w : World) (r : Request)
    (hpost : r.method = "POST") :
    ((reservationHandler P w r).1.status = 400 ↔
      (r.nom = "" ∨ r.prenom = "" ∨ r.email = "" ∨ r.telephone = "" ∨ r.type_session = "" ∨
        r.date_session = "" ∨ r.heure_session = "" ∨ isEmailValid r.email = false)) ∧
    ((reservationHandler P w r).1.status = 400 →
      (reservationHandler P w r).2 = w ∧ callsOf P w r = []) ∧
    (∀ nb msg : String,
      (reservationHandler P w { r with nb_personnes := nb, message := msg }).1.status = 400 ↔
        (reservationHandler P w r).1.status = 400) := by
  have key : ∀ r' : Request, r'.method = "POST" →
      ((reservationHandler P w r').1.status = 400 ↔
        ((r'.nom = "" ∨ r'.prenom = "" ∨ r'.email = "" ∨ r'.telephone = "" ∨
          r'.type_session = "" ∨ r'.date_session = "" ∨ r'.heure_session = "") ∨
          isEmailValid r'.email = false)) := by
    intro r' hp
    constructor
    · intro h400
      rcases validated_or_rejected r' hp with hv | hbad
      · rcases validated_status P w r' hv with h | h <;> rw [h] at h400 <;> simp at h400
      · exact hbad
    · intro hbad
      exact (reservationHandler_rejected P w r' hp hbad).1
  refine ⟨?_, ?_, ?_⟩
  · rw [key r hpost]
    simp only [or_assoc]
  · intro h400
    have hw := (reservationHandler_rejected P w r hpost ((key r hpost).1 h400)).2
    refine ⟨hw, ?_⟩
    unfold callsOf
    rw [hw]
    simp
  · intro nb msg
    rw [key r hpost, key { r with nb_personnes := nb, message := msg } hpost]

theorem reservationHandler_rejects_iff_witness :
    (reservationHandler okProviders ⟨[], []⟩ sampleRequest).1.status ≠ 400 ∧
      (reservationHandler okProviders ⟨[], []⟩
        { sampleRequest with telephone := "" }).1.status = 400 ∧
      callsOf okProviders ⟨[], []⟩ { sampleRequest with email := "foo@bar" } = [] := by
  refine ⟨?_, ?_, ?_⟩
  · intro h
    exact absurd ((reservationHandler_rejects_iff okProviders ⟨[], []⟩ sampleRequest rfl).1.1 h)
      (by decide)
  · exact (reservationHandler_rejects_iff okProviders ⟨[], []⟩
      { sampleRequest with telephone := "" } rfl).1.2 (by decide)
  · exact ((reservationHandler_rejects_iff okProviders ⟨[], []⟩
      { sampleRequest with email := "foo@bar" } rfl).2.1
        ((reservationHandler_rejects_iff okProviders ⟨[], []⟩
          { sampleRequest with email := "foo@bar" } rfl).1.2 (by decide))).2

/-- C5: for a validated booking request, when calendar event creation fails (the service
cannot be built, date and time do not parse, or the insert returns an error, code 401
included) the response is a server error 500, the store is unchanged, and the run issued at
most the failed calendar insert: no store write and no email attempt. -/
theorem calendar_failure_is_server_error (P : Providers) (w : World) (r : Request)
    (hv : Validated r) (hf : CalendarFailed P r) :
    (∃ msg, (reservationHandler P w r).1 = .error msg 500) ∧
    (reservationHandler P w r).2.reservations = w.reservations ∧
    (reservationHandler P w r).2.trace = w.trace ++ callsOf P w r ∧
    (callsOf P w r = [] ∨ ∃ t, callsOf P w r = [Call.eventsInsert (r.event t)]) ∧
    (∀ row, Call.dbExec row ∉ callsOf P w r) ∧
    (∀ recipient subject body, Call.sendEmail recipient subject body ∉ callsOf P w r) := by
  obtain ⟨err, calls, h, hcalls⟩ := reservationHandler_calendarFailed P w r hv hf
  have hc : callsOf P w r = calls := by
    unfold callsOf
    rw [h]
    simp
  refine ⟨⟨_, by rw [h]⟩, by rw [h], trace_eq_append_callsOf P w r, ?_, ?_, ?_⟩
  · rw [hc]
    exact hcalls
  · intro row
    rw [hc]
    rcases hcalls with h0 | ⟨t, h1⟩
    · simp [h0]
    · simp [h1]
  · intro recipient subject body
    rw [hc]
    rcases hcalls with h0 | ⟨t, h1⟩
    · simp [h0]
    · simp [h1]

theorem calendar_failure_is_server_error_witness :
    (reservationHandler calendarDownProviders ⟨[], []⟩ sampleRequest).1.status = 500 ∧
      (reservationHandler calendarDownProviders ⟨[], []⟩ sampleRequest).2.reservations = [] ∧
      (∀ row, Call.dbExec row ∉ callsOf calendarDownProviders ⟨[], []⟩ sampleRequest) := by
  have h := calendar_failure_is_server_error calendarDownProviders ⟨[], []⟩ sampleRequest
    (by decide) (Or.inr (Or.inr ⟨sampleTime, by decide, Or.inr rfl⟩))
  obtain ⟨⟨msg, hmsg⟩, hres, _, _, hdb, _⟩ := h
  exact ⟨by rw [hmsg]; rfl, hres, hdb⟩

/-- C6: for a validated booking request whose calendar event was created, when the store
write fails the response is a server error 500, the store is unchanged, and the calls of the
run are exactly the calendar insert followed by the failed store write: no further calendar
call undoes the event and no email is attempted. -/
theorem store_failure_keeps_event (P : Providers) (w : World) (r : Request) (t : Time)
    (id : String) (hv : Validated r) (hc : CalendarCreated P r t id)
    (hd : P.dbExec (r.row id) = false) :
    (∃ msg, (reservationHandler P w r).1 = .error msg 500) ∧
    (reservationHandler P w r).2.reservations = w.reservations ∧
    (reservationHandler P w r).2.trace = w.trace ++ callsOf P w r ∧
    callsOf P w r = [Call.eventsInsert (r.event t), Call.dbExec (r.row id)] := by
  have h := reservationHandler_created P w r t id hv hc
  rw [hd] at h
  simp only [Bool.false_eq_true, if_false] at h
  refine ⟨⟨_, by rw [h]⟩, by rw [h], trace_eq_append_callsOf P w r, ?_⟩
  unfold callsOf
  rw [h]
  simp

theorem store_failure_keeps_event_witness :
    (reservationHandler storeDownProviders ⟨[], []⟩ sampleRequest).1.status = 500 ∧
      callsOf storeDownProviders ⟨[], []⟩ sampleRequest
        = [Call.eventsInsert (sampleRequest.event sampleTime),
            Call.dbExec (sampleRequest.row "evt-1")] := by
  have h := store_failure_keeps_event storeDownProviders ⟨[], []⟩ sampleRequest sampleTime
    "evt-1" (by decide) (by decide) rfl
  obtain ⟨⟨msg, hmsg⟩, _, _, hcalls⟩ := h
  exact ⟨by rw [hmsg]; rfl, hcalls⟩

/-- C7: for a booking request whose calendar creation and store write both succeed, the
response is the redirect 303 to `/confirmation` whatever the mail provider answers: the
calls of the run are the calendar insert, the store write, then the customer email and the
operator email, each attempted exactly once, the operator email also after a failed customer
email, and replacing the mail outcomes changes neither the response nor the world. -/
theorem notifications_never_block (P : Providers) (w : World) (r : Request) (t : Time)
    (id : String) (hv : Validated r) (hc : CalendarCreated P r t id)
    (hd : P.dbExec (r.row id) = true) :
    (reservationHandler P w r).1 = .redirect "/confirmation" 303 ∧
    callsOf P w r = [Call.eventsInsert (r.event t), Call.dbExec (r.row id), r.clientMail,
      r.ownerMail id] ∧
    (callsOf P w r).count r.clientMail = 1 ∧
    (callsOf P w r).count (r.ownerMail id) = 1 ∧
    (∀ (gmailNew : Bool) (gmailSend : String → String → String → Bool),
      reservationHandler { P with gmailNew := gmailNew, gmailSend := gmailSend } w r
        = reservationHandler P w r) := by
  have h := reservationHandler_created P w r t id hv hc
  rw [hd] at h
  simp only [if_true] at h
  have hcalls : callsOf P w r = [Call.eventsInsert (r.event t), Call.dbExec (r.row id),
      r.clientMail, r.ownerMail id] := by
    unfold callsOf
    rw [h]
    simp
  refine ⟨by rw [h], hcalls, ?_, ?_, ?_⟩
  · rw [hcalls]
    simp [Request.clientMail, Request.ownerMail, List.count_cons]
  · rw [hcalls]
    simp [Request.clientMail, Request.ownerMail, List.count_cons]
  · intro gmailNew gmailSend
    have h2 := reservationHandler_created
      { P with gmailNew := gmailNew, gmailSend := gmailSend } w r t id hv hc
    rw [h2, h]
    simp [hd]

theorem notifications_never_block_witness :
    (sendEmailWithGmail mailDownProviders ⟨[], []⟩ "foo@bar.com" "s" "b").1 ≠ none ∧
      (reservationHandler mailDownProviders ⟨[], []⟩ sampleRequest).1
        = .redirect "/confirmation" 303 ∧
      (callsOf mailDownProviders ⟨[], []⟩ sampleRequest).count
        (sampleRequest.ownerMail "evt-1") = 1 := by
  have h := notifications_never_block mailDownProviders ⟨[], []⟩ sampleRequest sampleTime
    "evt-1" (by decide) (by decide) rfl
  exact ⟨by decide, h.1, h.2.2.2.1⟩

theorem getHeuresDisponibles_ok (Q : Providers) (w : World) (date : String)
    (hdate : date ≠ "") (hq : Q.dbQuery date = true) (hscan : ∀ i, Q.rowsScan i = true) :
    getHeuresDisponibles Q w date
      = .json (filterAvailableHeures defaultHeures (bookedHeures w.reservations date)) := by
  unfold getHeuresDisponibles
  rw [if_neg hdate, scanRows_all Q hscan]
  simp [hq]

/-- C8: for every store state and every validated booking request for date `d` and time
`t` whose calendar creation and store write succeed, the store afterwards holds the row of
the request for `(d, t)` with the returned event id, `t` is not in
`filterAvailableHeures defaultHeures` of the times stored for `d`, and an availability query
for `d` whose read succeeds answers exactly that list. -/
theorem booked_slot_not_available (P : Providers) (w : World) (r : Request) (t : Time)
    (id : String) (hv : Validated r) (hc : CalendarCreated P r t id)
    (hd : P.dbExec (r.row id) = true) :
    r.row id ∈ (reservationHandler P w r).2.reservations ∧
    (r.row id).date_session = r.date_session ∧
    (r.row id).heure_session = r.heure_session ∧
    (r.row id).google_event_id = id ∧
    r.heure_session ∉ filterAvailableHeures defaultHeures
      (bookedHeures (reservationHandler P w r).2.reservations r.date_session) ∧
    (∀ Q : Providers, Q.dbQuery r.date_session = true → (∀ i, Q.rowsScan i = true) →
      getHeuresDisponibles Q (reservationHandler P w r).2 r.date_session
        = .json (filterAvailableHeures defaultHeures
            (bookedHeures (reservationHandler P w r).2.reservations r.date_session))) := by
  have h := reservationHandler_created P w r t id hv hc
  rw [hd] at h
  simp only [if_true] at h
  have hmem : r.row id ∈ (reservationHandler P w r).2.reservations := by
    rw [h]
    simp
  refine ⟨hmem, rfl, rfl, rfl, ?_, ?_⟩
  · intro hin
    have hbooked : r.heure_session ∈
        bookedHeures (reservationHandler P w r).2.reservations r.date_session := by
      unfold bookedHeures
      rw [List.mem_map]
      exact ⟨r.row id, List.mem_filter.2 ⟨hmem, by simp [Request.row]⟩, rfl⟩
    rw [filterAvailableHeures_eq_filter, List.mem_filter] at hin
    exact of_decide_eq_true hin.2 hbooked
  · intro Q hq hscan
    exact getHeuresDisponibles_ok Q _ _ hv.2.2.2.2.2.2.1 hq hscan

theorem booked_slot_not_available_witness :
    sampleRequest.row "evt-1" ∈
        (reservationHandler okProviders ⟨[], []⟩ sampleRequest).2.reservations ∧
      getHeuresDisponibles okProviders
          (reservationHandler okProviders ⟨[], []⟩ sampleRequest).2 "2024-06-01"
        = .json ["09:00", "13:00", "15:00", "17:00", "19:00"] := by
  have h := booked_slot_not_available okProviders ⟨[], []⟩ sampleRequest sampleTime "evt-1"
    (by decide) (by decide) rfl
  refine ⟨h.1, ?_⟩
  have hq := h.2.2.2.2.2 okProviders rfl (fun _ => rfl)
  rw [show sampleRequest.date_session = "2024-06-01" from rfl] at hq
  rw [hq]
  decide

/-- C9 fails as stated: the validated request `offCatalogRequest` for `10:30`, a time that
is not in `defaultHeures`, reaches the store write and its row is stored. -/
theorem off_catalog_slot_is_stored :
    Call.dbExec (offCatalogRequest.row "evt-1")
        ∈ callsOf okProviders ⟨[], []⟩ offCatalogRequest ∧
      (reservationHandler okProviders ⟨[], []⟩ offCatalogRequest).2.reservations
        = [offCatalogRequest.row "evt-1"] ∧
      (offCatalogRequest.row "evt-1").heure_session = "10:30" ∧
      "10:30" ∉ defaultHeures ∧
      ¬ (∀ (P : Providers) (w : World) (r : Request) (row : Reservation),
          Call.dbExec row ∈ callsOf P w r → row.heure_session ∈ defaultHeures) := by
  have hcall : Call.dbExec (offCatalogRequest.row "evt-1")
      ∈ callsOf okProviders ⟨[], []⟩ offCatalogRequest := by decide
  refine ⟨hcall, by decide, rfl, by decide, ?_⟩
  intro hall
  exact absurd (hall okProviders ⟨[], []⟩ offCatalogRequest _ hcall) (by decide)

theorem callsOf_dbExec (P : Providers) (w : World) (r : Request) (row : Reservation)
    (h : Call.dbExec row ∈ callsOf P w r) :
    Validated r ∧ ∃ t id, CalendarCreated P r t id ∧ row = r.row id := by
  by_cases hpost : r.method = "POST"
  · rcases validated_or_rejected r hpost with hv | hbad
    · refine ⟨hv, ?_⟩
      rcases calendar_created_or_failed P r with hf | ⟨t, id, hc⟩
      · obtain ⟨err, calls, hr, hcalls⟩ := reservationHandler_calendarFailed P w r hv hf
        unfold callsOf at h
        rw [hr] at h
        rcases hcalls with h0 | ⟨t, h1⟩
        · simp [h0] at h
        · simp [h1] at h
      · refine ⟨t, id, hc, ?_⟩
        have hr := reservationHandler_created P w r t id hv hc
        unfold callsOf at h
        rw [hr] at h
        split_ifs at h
        · simpa [Request.clientMail, Request.ownerMail] using h
        · simpa using h
    · have hw := (reservationHandler_rejected P w r hpost hbad).2
      unfold callsOf at h
      rw [hw] at h
      simp at h
  · unfold callsOf reservationHandler at h
    rw [if_neg hpost] at h
    simp at h

/-- C9 as amended: every reservation that reaches the store write carries the date and time
of a validated request; its session time is non-empty and reads `H:MM` or `HH:MM` in
digits, its date reads `YYYY-MM-DD` in digits, and the text
`date_session ++ "T" ++ heure_session ++ ":00"` is accepted by `time.Parse` under the layout
`2006-01-02T15:04:05` with an hour below 24 and a minute below 60. -/
theorem stored_slot_parses (P : Providers) (w : World) (r : Request) (row : Reservation)
    (h : Call.dbExec row ∈ callsOf P w r) :
    row.date_session = r.date_session ∧ row.heure_session = r.heure_session ∧
      r.heure_session ≠ "" ∧ ClockText r.heure_session.toList ∧
      DateText r.date_session.toList ∧
      ∃ t, timeParse (r.date_session ++ "T" ++ r.heure_session ++ ":00") = some t ∧
        t.hour < 24 ∧ t.min < 60 := by
  obtain ⟨hv, t, id, hc, hrow⟩ := callsOf_dbExec P w r row h
  subst hrow
  obtain ⟨hdate, hclock, hhour, hmin⟩ := sessionTime_shape r.date_session r.heure_session t hc.2.1
  exact ⟨rfl, rfl, hv.2.2.2.2.2.2.2.1, hclock, hdate, t, hc.2.1, hhour, hmin⟩

theorem stored_slot_parses_witness :
    (offCatalogRequest.row "evt-1").heure_session = offCatalogRequest.heure_session ∧
      ClockText "10:30".toList ∧ DateText "2024-06-01".toList ∧
      ∃ t, timeParse ("2024-06-01" ++ "T" ++ "10:30" ++ ":00") = some t ∧
        t.hour < 24 ∧ t.min < 60 := by
  have h := stored_slot_parses okProviders ⟨[], []⟩ offCatalogRequest
    (offCatalogRequest.row "evt-1") (by decide)
  exact ⟨h.2.1, h.2.2.2.1, h.2.2.2.2.1, h.2.2.2.2.2⟩

/-- C10: the workflow never consults the store: for every request and any two worlds the
same providers give the same response and the same sequence of calendar, store-write and
email calls; in particular a validated request for a date and time that already has a row
is not rejected: when the providers succeed it is answered with the redirect, a further
calendar event is inserted and a further row for that date and time is appended. -/
theorem reservationHandler_ignores_store :
    (∀ (P : Providers) (r : Request) (w1 w2 : World),
      (reservationHandler P w1 r).1 = (reservationHandler P w2 r).1 ∧
        callsOf P w1 r = callsOf P w2 r) ∧
    (∀ (P : Providers) (w : World) (r : Request) (t : Time) (id : String)
        (old : Reservation),
      Validated r → CalendarCreated P r t id → P.dbExec (r.row id) = true →
      old ∈ w.reservations → old.date_session = r.date_session →
      old.heure_session = r.heure_session →
        (reservationHandler P w r).1 = .redirect "/confirmation" 303 ∧
        Call.eventsInsert (r.event t) ∈ callsOf P w r ∧
        Call.dbExec (r.row id) ∈ callsOf P w r ∧
        (reservationHandler P w r).2.reservations = w.reservations ++ [r.row id] ∧
        2 ≤ (bookedHeures (reservationHandler P w r).2.reservations
          r.date_session).count r.heure_session) := by
  constructor
  · intro P r w1 w2
    constructor
    · rw [reservationHandler_frame P w1 r, reservationHandler_frame P w2 r]
    · rw [callsOf_eq, callsOf_eq]
  · intro P w r t id old hv hc hd hold hdate hheure
    have h := reservationHandler_created P w r t id hv hc
    rw [hd] at h
    simp only [if_true] at h
    have hcalls : callsOf P w r = [Call.eventsInsert (r.event t), Call.dbExec (r.row id),
        r.clientMail, r.ownerMail id] := by
      unfold callsOf
      rw [h]
      simp
    refine ⟨by rw [h], by simp [hcalls], by simp [hcalls], by rw [h], ?_⟩
    rw [h]
    have hone : 1 ≤ (bookedHeures w.reservations r.date_session).count r.heure_session := by
      rw [Nat.succ_le_iff, List.count_pos_iff]
      unfold bookedHeures
      rw [List.mem_map]
      exact ⟨old, List.mem_filter.2 ⟨hold, by simp [hdate]⟩, hheure⟩
    have hsplit : bookedHeures (w.reservations ++ [r.row id]) r.date_session
        = bookedHeures w.reservations r.date_session ++ [r.heure_session] := by
      simp [bookedHeures, Request.row]
    simp only [hsplit, List.count_append, List.count_singleton_self]
    omega

theorem reservationHandler_ignores_store_witness :
    (reservationHandler okProviders ⟨[sampleRequest.row "evt-0"], []⟩ sampleRequest).1
        = (reservationHandler okProviders ⟨[], []⟩ sampleRequest).1 ∧
      (reservationHandler okProviders ⟨[sampleRequest.row "evt-0"], []⟩
          sampleRequest).2.reservations
        = [sampleRequest.row "evt-0", sampleRequest.row "evt-1"] := by
  refine ⟨(reservationHandler_ignores_store.1 okProviders sampleRequest
    ⟨[sampleRequest.row "evt-0"], []⟩ ⟨[], []⟩).1, ?_⟩
  exact (reservationHandler_ignores_store.2 okProviders ⟨[sampleRequest.row "evt-0"], []⟩
    sampleRequest sampleTime "evt-1" (sampleRequest.row "evt-0") (by decide) (by decide) rfl
    (by simp) rfl rfl).2.2.2.1

end Republik
